import Mathlib

/-!
Verification of the nRF5-multi-prog concurrent flashing tool
(`nrf5_multi_prog.py`) against its natural-language specification.

The Python source is shallowly embedded below: pure computations
(erase-page planning, byte-list comparison) become Lean functions,
the per-target device session becomes an event-trace producer in which
a verify mismatch (Python `assert`) or an out-of-range list index
(Python `IndexError`) aborts the run, the `nRF5_instances` dictionary
becomes an association list with last-write-wins lookup, and the
thread-pool fan-out of `main` raises for an empty target list (a
`ThreadPool(0)` is not allowed) and otherwise becomes a map over the
serial-number list in which the first raised worker exception
propagates to the caller.
-/

namespace NRF5MultiProg


/-! ## Erase planner

Embeds lines 117-121 of `nRF5MultiFlash._program_device`:

    start_page = int(start_addr / self.PAGE_SIZE)
    end_page = int(end_addr / self.PAGE_SIZE)
    for page in range(start_page, end_page + 1):
        self.nRF5_instances[device].erase_page(page * self.PAGE_SIZE)

Addresses are non-negative machine integers, so `int(x / y)` is floor
division, i.e. `Nat` division, and Python `range(a, b)` is
`List.range' a (b - a)` (empty when `b ≤ a`). -/

def erasePlan (start_addr end_addr page_size : Nat) : List Nat :=
  let start_page := start_addr / page_size
  let end_page := end_addr / page_size
  (List.range' start_page (end_page + 1 - start_page)).map (fun page => page * page_size)

/-! ## Byte-list comparison

Embeds lines 96-100, `nRF5MultiFlash._byte_lists_equal`:

    def _byte_lists_equal(self, data, read_data):
        for i in xrange(len(data)):
            if data[i] != read_data[i]:
                return False
        return True

`read_data[i]` raises `IndexError` when `i >= len(read_data)`; the embedding
returns `none` for that fault and `some b` for a normal return of `b`. -/

def byteListsEqualGo (data read_data : List Nat) (i : Nat) : Option Bool :=
  if h : i < data.length then
    if hr : i < read_data.length then
      if data.get ⟨i, h⟩ ≠ read_data.get ⟨i, hr⟩ then some false
      else byteListsEqualGo data read_data (i + 1)
    else none
  else
    some true
termination_by data.length - i
decreasing_by simp_wf; omega

def byteListsEqual (data read_data : List Nat) : Option Bool :=
  byteListsEqualGo data read_data 0

/-! ## Device family and page size

Embeds constructor lines 80-92:

    if not self.family:
        self.family = 'NRF51'
    ...
    if self.family is 'NRF51':
        self.PAGE_SIZE = 0x400
    else:
        self.PAGE_SIZE = 0x1000

The comparison is Python `is`: object identity, not string equality. A
`PyStr` models a CPython string object as its character value plus an
object identifier. The module's literal 'NRF51' is one interned object
(identifier 0 here); a family string parsed from the command line comes
from `sys.argv`, which CPython does not intern, so an explicitly supplied
"NRF51" is an equal but distinct object (a nonzero identifier). -/

def strNRF51 : String := "NRF51"

def strNRF52 : String := "NRF52"

structure PyStr where
  val : String
  objId : Nat
deriving DecidableEq

/-- Python `a is b` on the modelled string objects. -/
def pyIs (a b : PyStr) : Bool := a.objId == b.objId

/-- The interned module literal 'NRF51'. -/
def literalNRF51 : PyStr := ⟨strNRF51, 0⟩

/-- An explicitly supplied command-line family string "NRF51": equal
characters, distinct object. -/
def argvNRF51 : PyStr := ⟨strNRF51, 1⟩

/-- Lines 80-81: `if not self.family: self.family = 'NRF51'`. -/
def familySetup (family : Option PyStr) : PyStr := family.getD literalNRF51

/-- Lines 89-92: the page size chosen by `nRF5MultiFlash.__init__`. -/
def pageSizeInit (family : PyStr) : Nat :=
  if pyIs family literalNRF51 then 0x400 else 0x1000

/-! ## Command-line surface and configuration validation

`CLI._add_erase_before_flash_group` (lines 31-35) places `--eraseall`,
`--sectorserase` and `--sectorsanduicrerase` in one argparse mutually
exclusive group, so `parse_args` (`CLI.run`, line 146) aborts with a usage
error when more than one of them appears — before `nRF5MultiFlash` is
constructed and before any worker runs. -/

structure Args where
  eraseall : Bool
  family : Option PyStr
  file : String
  sectorserase : Bool
  sectorsanduicrerase : Bool
  snrs : List Nat
  systemreset : Bool
  verify : Bool
deriving DecidableEq

/-- Number of erase-mode flags present on the command line. -/
def eraseFlagCount (a : Args) : Nat :=
  (if a.eraseall then 1 else 0) + (if a.sectorserase then 1 else 0)
    + (if a.sectorsanduicrerase then 1 else 0)

/-- `CLI.run` / `argparse.parse_args`: reject when the mutually exclusive
erase group has more than one member present. -/
def cliRun (a : Args) : Option Args :=
  if 2 ≤ eraseFlagCount a then none else some a

/-! ## Target resolution

Embeds constructor lines 83-87:

    if not self.snrs:
        tmp = MultiAPI.MultiAPI('NRF51')
        tmp.open()
        self.snrs = tmp.enum_emu_snr()
        tmp.close()

Note the hard-coded 'NRF51': the scoped enumeration session ignores
`self.family`. An absent `-s` option leaves `args.snrs = None`, falsy like
the empty list, so both are modelled by `[]`. The returned trace records the
scoped session's lifecycle. -/

inductive EnumEv where
  | openS (family : String)
  | enumQ
  | closeS
deriving DecidableEq

def resolveTargets (family : String) (snrs enumerated : List Nat) :
    List Nat × List EnumEv :=
  if snrs = [] then
    (enumerated, [EnumEv.openS strNRF51, EnumEv.enumQ, EnumEv.closeS])
  else
    (snrs, [])

/-- `main` (lines 144-151) up to worker dispatch: parse the arguments, build
`nRF5MultiFlash` (defaulting the family, resolving targets), then hand one
worker per serial number to the thread pool. The result is the list of
serial numbers on which per-target workers start; a parse failure aborts
with no workers. -/
def mainWorkersStarted (a : Args) (enumerated : List Nat) : Option (List Nat) :=
  (cliRun a).map
    (fun a0 => (resolveTargets (familySetup a0.family).val a0.snrs enumerated).1)

/-! ## Per-target device session as an event trace

Embeds `_program_device` (lines 107-131), `_cleanup` (lines 133-135) and
`perform_command` (lines 139-142). Transport calls are recorded as events.
The only modelled failure source is the verify step: `read` returns whatever
the device yields (a behavior parameter), the `assert` on line 128 raises
`AssertionError` on a mismatch, and `_byte_lists_equal` itself raises
`IndexError` when the read-back is shorter than the data. A raised exception
aborts all remaining steps of the worker, exactly as in Python. -/

inductive Ev where
  | openE
  | connectEmu (snr : Nat)
  | recover
  | eraseUicr
  | erasePage (addr : Nat)
  | write (addr : Nat) (data : List Nat)
  | readCall (addr len : Nat)
  | sysReset
  | disconnectE
  | closeE
deriving DecidableEq

inductive PyErr where
  | assertionError
  | indexError
deriving DecidableEq

structure Config where
  erase_all : Bool
  sectors_erase : Bool
  sectors_and_uicr_erase : Bool
  systemreset : Bool
  verify : Bool
  page_size : Nat
deriving DecidableEq

structure Segment where
  start_addr : Nat
  end_addr : Nat
  data : List Nat
deriving DecidableEq

structure Res where
  events : List Ev
  error : Option PyErr
deriving DecidableEq

/-- One iteration of the `for segment in self.hex_file.segments()` loop
(lines 113-131): optional sector erase via the erase plan, write, optional
verify (which may raise), and — note, inside the loop — the optional system
reset of lines 130-131. -/
def segmentStep (cfg : Config) (read : Nat → Nat → List Nat) (seg : Segment) :
    List Ev × Option PyErr :=
  let eraseEvs := if cfg.sectors_erase || cfg.sectors_and_uicr_erase then
      (erasePlan seg.start_addr seg.end_addr cfg.page_size).map Ev.erasePage
    else []
  let base := eraseEvs ++ [Ev.write seg.start_addr seg.data]
  if cfg.verify then
    let rd := read seg.start_addr seg.data.length
    let evs := base ++ [Ev.readCall seg.start_addr seg.data.length]
    match byteListsEqual seg.data rd with
    | none => (evs, some PyErr.indexError)
    | some false => (evs, some PyErr.assertionError)
    | some true =>
        (if cfg.systemreset then evs ++ [Ev.sysReset] else evs, none)
  else
    (if cfg.systemreset then base ++ [Ev.sysReset] else base, none)

/-- The segment loop: a raised exception stops the loop. -/
def runSegments (cfg : Config) (read : Nat → Nat → List Nat) :
    List Segment → List Ev × Option PyErr
  | [] => ([], none)
  | seg :: rest =>
      match segmentStep cfg read seg with
      | (evs, some err) => (evs, some err)
      | (evs, none) =>
          let r := runSegments cfg read rest
          (evs ++ r.1, r.2)

/-- `_program_device`: optional recover (line 108-109), optional UICR erase
(lines 110-111), then the segment loop. -/
def programDevice (cfg : Config) (read : Nat → Nat → List Nat)
    (segs : List Segment) : List Ev × Option PyErr :=
  let pre := (if cfg.erase_all then [Ev.recover] else [])
      ++ (if cfg.sectors_and_uicr_erase then [Ev.eraseUicr] else [])
  let r := runSegments cfg read segs
  (pre ++ r.1, r.2)

/-- `perform_command` (lines 139-142): connect, program, cleanup — with no
exception handler, so a raised exception skips `_cleanup`. -/
def performCommand (cfg : Config) (read : Nat → Nat → List Nat)
    (segs : List Segment) (device : Nat) : Res :=
  let pre := [Ev.openE, Ev.connectEmu device]
  let r := programDevice cfg read segs
  if r.2.isSome then ⟨pre ++ r.1, r.2⟩
  else ⟨pre ++ r.1 ++ [Ev.disconnectE, Ev.closeE], none⟩

/-- A device whose reads return all zeroes (also used where verify is off
and the read behavior is irrelevant). -/
def zeroRead : Nat → Nat → List Nat := fun _ len => List.replicate len 0

/-- One worker's outcome as observed by `pool.map`: `perform_command`
returns `None` (here `()`) or raises. The read behavior is per-device. -/
def workerOutcome (cfg : Config) (readOf : Nat → Nat → Nat → List Nat)
    (segs : List Segment) (device : Nat) : Except PyErr Unit :=
  match (performCommand cfg (readOf device) segs device).error with
  | some e => Except.error e
  | none => Except.ok ()

/-- Line 151: `pool.map(nRF.perform_command, nRF.snrs)`. Collecting the
results re-raises the first failure in list order; on success the caller
gets one untagged `None` per serial number. -/
def poolMapResults (cfg : Config) (readOf : Nat → Nat → Nat → List Nat)
    (segs : List Segment) : List Nat → Except PyErr (List Unit)
  | [] => Except.ok []
  | d :: rest =>
      match workerOutcome cfg readOf segs d with
      | Except.error e => Except.error e
      | Except.ok u =>
          match poolMapResults cfg readOf segs rest with
          | Except.error e => Except.error e
          | Except.ok l => Except.ok (u :: l)

/-- What escapes `main`: the `ValueError` raised by `ThreadPool(0)` on
line 150 when the resolved serial list is empty, or a worker exception
re-raised by `pool.map` on line 151. -/
inductive MainErr where
  | valueError
  | worker (e : PyErr)
deriving DecidableEq

/-- Lines 150-151: `pool = ThreadPool(len(nRF.snrs))` requires at least one
process and raises `ValueError` for an empty resolved list, before any
worker exists; otherwise `pool.map` runs the workers and collecting the
results re-raises the first worker failure. -/
def mainRun (cfg : Config) (readOf : Nat → Nat → Nat → List Nat)
    (segs : List Segment) (snrs : List Nat) : Except MainErr (List Unit) :=
  if snrs.length = 0 then Except.error MainErr.valueError
  else
    match poolMapResults cfg readOf segs snrs with
    | Except.error e => Except.error (MainErr.worker e)
    | Except.ok l => Except.ok l

/-- A per-device read behavior in which device 2's read-back is corrupted
(all zeroes) while every other device reads back `[1]`. -/
def readOfFaulty2 : Nat → Nat → Nat → List Nat :=
  fun device _ len => if device = 2 then List.replicate len 0 else [1]

/-! ## The shared `nRF5_instances` dictionary

Embeds line 70 (`self.nRF5_instances = {}`) and `_connect_to_device`
(lines 102-105):

    self.nRF5_instances[device] = MultiAPI.MultiAPI(self.family)
    self.nRF5_instances[device].open()
    self.nRF5_instances[device].connect_to_emu_with_snr(device)

All workers store their probe handles in this one dictionary owned by the
shared `nRF5MultiFlash` object, keyed by the target serial number, and look
the handle up by that key at every subsequent transport call. Handles are
numbered in creation order; the association list keeps the latest binding
first, mirroring dictionary overwrite. -/

structure ProgState where
  instances : List (Nat × Nat)
  nextHandle : Nat
deriving DecidableEq

def initState : ProgState := ⟨[], 0⟩

/-- `_connect_to_device`: create a fresh probe handle and bind it to the
serial number `device`, overwriting any previous binding for that key. -/
def connectDevice (st : ProgState) (device : Nat) : ProgState :=
  ⟨(device, st.nextHandle) :: st.instances, st.nextHandle + 1⟩

/-- `self.nRF5_instances[device]`: the handle a worker operates on. -/
def handleOf (st : ProgState) (device : Nat) : Option Nat :=
  (st.instances.find? (fun p => p.1 == device)).map (fun p => p.2)

/-- The connect phases of the workers for `snrs`, in list order (one
possible interleaving of the concurrent workers). -/
def connectAll (snrs : List Nat) (st : ProgState) : ProgState :=
  snrs.foldl connectDevice st

/-- The handle the worker spawned for occurrence `i` of the target list uses
once all connect phases have happened. -/
def handleUsedByOccurrence (snrs : List Nat) (i : Nat) : Option Nat :=
  (snrs[i]?).bind (fun d => handleOf (connectAll snrs initState) d)

theorem erasePlan_mem (s e p : Nat) (hse : s ≤ e) :
    ∀ x, x ∈ erasePlan s e p ↔ ∃ k, s / p ≤ k ∧ k ≤ e / p ∧ x = k * p := by
  intro x
  have hdiv : s / p ≤ e / p := Nat.div_le_div_right hse
  simp only [erasePlan, List.mem_map, List.mem_range'_1]
  constructor
  · rintro ⟨k, ⟨hk1, hk2⟩, rfl⟩
    exact ⟨k, hk1, by omega, rfl⟩
  · rintro ⟨k, hk1, hk2, rfl⟩
    exact ⟨k, ⟨hk1, by omega⟩, rfl⟩

/-- A byte address `a` lying in a page `[k * p, k * p + p)` determines the
page index: `k = a / p`. -/
theorem page_unique (a k p : Nat) (h1 : k * p ≤ a) (h2 : a < k * p + p) :
    a / p = k :=
  Nat.div_eq_of_lt_le h1 (by rw [Nat.succ_mul]; omega)

/-- Every byte address sits inside the page starting at `a / p * p`. -/
theorem page_cover (a p : Nat) (hp : 0 < p) : a / p * p ≤ a ∧ a < a / p * p + p := by
  have h := Nat.div_add_mod' a p
  have hm : a % p < p := Nat.mod_lt _ hp
  constructor
  · omega
  · omega

/-- Claim C1: for every segment with `start < end` and every `pageSize > 0`,
the erase plan is exactly the ascending sequence `page * pageSize` for `page`
from `floor(start/pageSize)` to `floor(end/pageSize)` inclusive, consecutive
planned pages are adjacent (no gaps), there are no duplicates, and every byte
address in `[start, end)` lies within exactly one planned page. -/
theorem c1_erase_plan_exact (s e p : Nat) (hse : s < e) (hp : 0 < p) :
    erasePlan s e p
      = (List.range' (s / p) (e / p - s / p + 1)).map (fun page => page * p)
    ∧ (erasePlan s e p).Chain' (fun a b => b = a + p)
    ∧ (erasePlan s e p).Nodup
    ∧ (∀ a, s ≤ a → a < e →
        ∃! pg, pg ∈ erasePlan s e p ∧ pg ≤ a ∧ a < pg + p) := by
  have hdiv : s / p ≤ e / p := Nat.div_le_div_right (Nat.le_of_lt hse)
  refine ⟨?_, ?_, ?_, ?_⟩
  · simp only [erasePlan]
    have h : e / p + 1 - s / p = e / p - s / p + 1 := by omega
    rw [h]
  · rw [List.chain'_iff_get]
    intro i hi
    simp only [erasePlan, List.length_map, List.length_range'] at hi
    simp only [erasePlan, List.get_eq_getElem, List.getElem_map, List.getElem_range']
    simp only [Nat.zero_mul, Nat.one_mul, Nat.zero_add, Nat.succ_eq_add_one]
    ring
  · exact List.Nodup.map (fun a b hab => Nat.eq_of_mul_eq_mul_right hp hab)
      (List.nodup_range' _ _)
  · intro a ha1 ha2
    have hc := page_cover a p hp
    have hmem : a / p * p ∈ erasePlan s e p := by
      rw [erasePlan_mem s e p (Nat.le_of_lt hse)]
      exact ⟨a / p, Nat.div_le_div_right ha1,
        Nat.div_le_div_right (Nat.le_of_lt ha2), rfl⟩
    refine ⟨a / p * p, ⟨hmem, hc.1, hc.2⟩, ?_⟩
    rintro y ⟨hy, hy1, hy2⟩
    rw [erasePlan_mem s e p (Nat.le_of_lt hse)] at hy
    obtain ⟨k, _, _, rfl⟩ := hy
    rw [page_unique a k p hy1 hy2]

theorem c1_erase_plan_exact_witness :
    (4096 < 4608 ∧ 0 < 1024)
    ∧ (erasePlan 4096 4608 1024
        = (List.range' (4096 / 1024) (4608 / 1024 - 4096 / 1024 + 1)).map
            (fun page => page * 1024)
      ∧ (erasePlan 4096 4608 1024).Chain' (fun a b => b = a + 1024)
      ∧ (erasePlan 4096 4608 1024).Nodup
      ∧ (∀ a, 4096 ≤ a → a < 4608 →
          ∃! pg, pg ∈ erasePlan 4096 4608 1024 ∧ pg ≤ a ∧ a < pg + 1024)) :=
  ⟨⟨by decide, by decide⟩, c1_erase_plan_exact 4096 4608 1024 (by decide) (by decide)⟩

/-- Claim C6: when the segment's `end` address is exactly page-aligned, the
plan contains a trailing page whose start address equals `end`, a page lying
entirely beyond the occupied bytes `[start, end)`. -/
theorem c6_trailing_page (s e p : Nat) (hse : s < e) (hp : 0 < p)
    (hal : e % p = 0) :
    e ∈ erasePlan s e p
    ∧ e = e / p * p
    ∧ ∀ a, s ≤ a → a < e → ¬(e ≤ a ∧ a < e + p) := by
  have hd : p ∣ e := Nat.dvd_of_mod_eq_zero hal
  have hmul : e / p * p = e := Nat.div_mul_cancel hd
  refine ⟨?_, hmul.symm, ?_⟩
  · rw [erasePlan_mem s e p (Nat.le_of_lt hse)]
    exact ⟨e / p, Nat.div_le_div_right (Nat.le_of_lt hse), Nat.le.refl, hmul.symm⟩
  · intro a _ ha2 h
    omega

theorem byteListsEqualGo_full (data read_data : List Nat)
    (hlen : data.length ≤ read_data.length) :
    ∀ n i, data.length - i ≤ n →
      byteListsEqualGo data read_data i
        = some (decide (∀ j, j < data.length → i ≤ j → data[j]? = read_data[j]?)) := by
  intro n
  induction n with
  | zero =>
      intro i hi
      rw [byteListsEqualGo, dif_neg (by omega)]
      have hP : ∀ j, j < data.length → i ≤ j → data[j]? = read_data[j]? := by
        intro j hj1 hj2
        omega
      rw [decide_eq_true hP]
  | succ n ih =>
      intro i hi
      by_cases h : i < data.length
      · have hr : i < read_data.length := by omega
        rw [byteListsEqualGo, dif_pos h, dif_pos hr]
        by_cases hne : data.get ⟨i, h⟩ ≠ read_data.get ⟨i, hr⟩
        · rw [if_pos hne]
          have hP : ¬ ∀ j, j < data.length → i ≤ j → data[j]? = read_data[j]? := by
            intro hP
            apply hne
            have := hP i h (Nat.le_refl i)
            rw [List.getElem?_eq_getElem h, List.getElem?_eq_getElem hr] at this
            simpa using this
          rw [decide_eq_false hP]
        · rw [if_neg hne]
          rw [ih (i + 1) (by omega)]
          congr 1
          apply decide_eq_decide.mpr
          constructor
          · intro hP j hj1 hj2
            rcases Nat.eq_or_lt_of_le hj2 with heq | hlt
            · subst heq
              rw [List.getElem?_eq_getElem h, List.getElem?_eq_getElem hr]
              simp only [Option.some.injEq]
              simpa using Decidable.not_not.mp hne
            · exact hP j hj1 hlt
          · intro hP j hj1 hj2
            exact hP j hj1 (by omega)
      · rw [byteListsEqualGo, dif_neg h]
        have hP : ∀ j, j < data.length → i ≤ j → data[j]? = read_data[j]? := by
          intro j hj1 hj2
          omega
        rw [decide_eq_true hP]

theorem byteListsEqualGo_short (data read_data : List Nat)
    (hlen : read_data.length < data.length)
    (hagree : ∀ j, j < read_data.length → data[j]? = read_data[j]?) :
    ∀ n i, read_data.length - i ≤ n → i ≤ read_data.length →
      byteListsEqualGo data read_data i = none := by
  intro n
  induction n with
  | zero =>
      intro i hi hile
      rw [byteListsEqualGo, dif_pos (by omega), dif_neg (by omega)]
  | succ n ih =>
      intro i hi hile
      rcases Nat.eq_or_lt_of_le hile with heq | hlt
      · rw [byteListsEqualGo, dif_pos (by omega), dif_neg (by omega)]
      · have hd : i < data.length := by omega
        rw [byteListsEqualGo, dif_pos hd, dif_pos hlt]
        have heqi : data.get ⟨i, hd⟩ = read_data.get ⟨i, hlt⟩ := by
          have := hagree i hlt
          rw [List.getElem?_eq_getElem hd, List.getElem?_eq_getElem hlt] at this
          simpa using this
        rw [if_neg (by simpa using heqi)]
        exact ih (i + 1) (by omega) (by omega)

/-- Claim C10: with `len(read_data) >= len(data)` the comparison returns a
boolean that is `True` exactly when the two lists agree on every index below
`len(data)`; trailing extra bytes of `read_data` never change the result; and
when `read_data` is shorter than `data` but agrees with it on all of
`read_data`'s indices, the loop faults with an out-of-range index (`none`)
instead of returning a boolean. -/
theorem c10_byte_lists_equal (data read_data : List Nat) :
    (data.length ≤ read_data.length →
      byteListsEqual data read_data
        = some (decide (∀ j, j < data.length → data[j]? = read_data[j]?)))
    ∧ (data.length ≤ read_data.length → ∀ extra,
      byteListsEqual data (read_data ++ extra) = byteListsEqual data read_data)
    ∧ (read_data.length < data.length →
      (∀ j, j < read_data.length → data[j]? = read_data[j]?) →
      byteListsEqual data read_data = none) := by
  refine ⟨?_, ?_, ?_⟩
  · intro hlen
    rw [byteListsEqual, byteListsEqualGo_full data read_data hlen data.length 0 (by omega)]
    congr 1
    apply decide_eq_decide.mpr
    constructor
    · intro hP j hj
      exact hP j hj (Nat.zero_le j)
    · intro hP j hj _
      exact hP j hj
  · intro hlen extra
    have hlen2 : data.length ≤ (read_data ++ extra).length := by
      rw [List.length_append]; omega
    rw [byteListsEqual, byteListsEqual,
      byteListsEqualGo_full data (read_data ++ extra) hlen2 data.length 0 (by omega),
      byteListsEqualGo_full data read_data hlen data.length 0 (by omega)]
    congr 1
    apply decide_eq_decide.mpr
    constructor
    · intro hP j hj1 hj2
      have := hP j hj1 hj2
      rwa [List.getElem?_append_left (by omega)] at this
    · intro hP j hj1 hj2
      rw [List.getElem?_append_left (by omega)]
      exact hP j hj1 hj2
  · intro hlen hagree
    exact byteListsEqualGo_short data read_data hlen hagree read_data.length 0
      (by omega) (by omega)

theorem c10_byte_lists_equal_witness :
    byteListsEqual [1, 2] [1, 2, 9] = some true
    ∧ byteListsEqual [1, 2] ([1, 2] ++ [9]) = byteListsEqual [1, 2] [1, 2]
    ∧ byteListsEqual [1, 2, 3] [1, 2] = none := by
  refine ⟨?_, ?_, ?_⟩
  · rw [(c10_byte_lists_equal [1, 2] [1, 2, 9]).1 (by decide)]
    decide
  · exact (c10_byte_lists_equal [1, 2] [1, 2]).2.1 (by decide) [9]
  · exact (c10_byte_lists_equal [1, 2, 3] [1, 2]).2.2 (by decide) (by decide)

theorem c6_trailing_page_witness :
    (4096 < 8192 ∧ 0 < 1024 ∧ 8192 % 1024 = 0)
    ∧ (8192 ∈ erasePlan 4096 8192 1024
      ∧ 8192 = 8192 / 1024 * 1024
      ∧ ∀ a, 4096 ≤ a → a < 8192 → ¬(8192 ≤ a ∧ a < 8192 + 1024)) :=
  ⟨⟨by decide, by decide, by decide⟩,
    c6_trailing_page 4096 8192 1024 (by decide) (by decide) (by decide)⟩

/-- Claim C7 (code bug): the claimed fixed mapping from family to page size
fails for an explicitly supplied family. Line 89 tests `self.family is
'NRF51'` — object identity — so the defaulted family (the interned literal)
maps to 0x400, but an explicitly supplied "NRF51" is a different string
object and falls through to the `else` branch, yielding page size 0x1000. -/
theorem c7_page_size_identity_bug :
    (familySetup none).val = strNRF51
    ∧ pageSizeInit (familySetup none) = 0x400
    ∧ (familySetup (some argvNRF51)).val = strNRF51
    ∧ pageSizeInit (familySetup (some argvNRF51)) = 0x1000
    ∧ pageSizeInit (familySetup (some argvNRF51)) ≠ 0x400 :=
  ⟨rfl, rfl, rfl, rfl, by decide⟩

/-- Claim C8 counterexample: with family NRF52 and no explicit serial list,
the scoped enumeration session is opened for 'NRF51', not for the given
family. -/
theorem c8_counterexample :
    (resolveTargets strNRF52 [] [7, 8]).1 = [7, 8]
    ∧ (resolveTargets strNRF52 [] [7, 8]).2
        = [EnumEv.openS strNRF51, EnumEv.enumQ, EnumEv.closeS]
    ∧ EnumEv.openS strNRF52 ∉ (resolveTargets strNRF52 [] [7, 8]).2 := by
  refine ⟨rfl, rfl, ?_⟩
  decide

/-- Claim C8 (amended): a non-empty explicit list is returned unchanged with
no enumeration session; an empty list triggers a scoped session that is
always opened for 'NRF51' — regardless of the requested family — queried
once, and closed before anything else runs. -/
theorem c8_resolve_targets_amended (family : String) (snrs enumerated : List Nat) :
    (snrs ≠ [] → resolveTargets family snrs enumerated = (snrs, []))
    ∧ (snrs = [] → resolveTargets family snrs enumerated
        = (enumerated, [EnumEv.openS strNRF51, EnumEv.enumQ, EnumEv.closeS])) := by
  constructor
  · intro h
    simp [resolveTargets, h]
  · intro h
    simp [resolveTargets, h]

theorem c8_resolve_targets_amended_witness :
    resolveTargets strNRF52 [5] [9] = ([5], [])
    ∧ resolveTargets strNRF52 [] [9]
        = ([9], [EnumEv.openS strNRF51, EnumEv.enumQ, EnumEv.closeS]) :=
  ⟨(c8_resolve_targets_amended strNRF52 [5] [9]).1 (by decide),
   (c8_resolve_targets_amended strNRF52 [] [9]).2 rfl⟩

/-- Claim C5: a request with more than one erase-mode flag set is rejected by
the mutually exclusive argparse group during `parse_args`, before any
per-target worker starts, whatever the target list. -/
theorem c5_erase_flags_mutually_exclusive (a : Args) (enumerated : List Nat)
    (h : 2 ≤ eraseFlagCount a) :
    mainWorkersStarted a enumerated = none := by
  simp [mainWorkersStarted, cliRun, if_pos h]

theorem c5_erase_flags_mutually_exclusive_witness :
    2 ≤ eraseFlagCount ⟨true, none, "app.hex", true, false, [1, 2, 3], false, false⟩
    ∧ mainWorkersStarted ⟨true, none, "app.hex", true, false, [1, 2, 3], false, false⟩
        [4, 5] = none :=
  ⟨by decide, c5_erase_flags_mutually_exclusive _ [4, 5] (by decide)⟩

theorem count_sysReset_erasePages (l : List Nat) :
    (l.map Ev.erasePage).count Ev.sysReset = 0 := by
  rw [List.count_eq_zero]
  intro h
  simp only [List.mem_map] at h
  obtain ⟨a, _, ha⟩ := h
  exact Ev.noConfusion ha

/-- Any event a segment iteration emits is an erase, the segment's write,
the segment's read-back, or a system reset. -/
theorem segmentStep_mem (cfg : Config) (read : Nat → Nat → List Nat)
    (seg : Segment) (e : Ev) (h : e ∈ (segmentStep cfg read seg).1) :
    (∃ a, e = Ev.erasePage a) ∨ e = Ev.write seg.start_addr seg.data
      ∨ e = Ev.readCall seg.start_addr seg.data.length ∨ e = Ev.sysReset := by
  simp only [segmentStep] at h
  repeat' split at h
  all_goals
    simp only [List.mem_append, List.mem_map, List.mem_singleton,
      List.not_mem_nil, List.mem_cons, or_false, false_or] at h
  all_goals tauto

/-- Count of system resets in the fixed erase+write part of one segment. -/
theorem count_sysReset_base (cfg : Config) (seg : Segment) :
    ((if cfg.sectors_erase || cfg.sectors_and_uicr_erase then
        (erasePlan seg.start_addr seg.end_addr cfg.page_size).map Ev.erasePage
      else []) ++ [Ev.write seg.start_addr seg.data]).count Ev.sysReset = 0 := by
  rw [List.count_append]
  have h1 : (if cfg.sectors_erase || cfg.sectors_and_uicr_erase then
      (erasePlan seg.start_addr seg.end_addr cfg.page_size).map Ev.erasePage
    else ([] : List Ev)).count Ev.sysReset = 0 := by
    split
    · exact count_sysReset_erasePages _
    · rfl
  rw [h1]
  simp [List.count_cons]

/-- With the reset flag set, a successfully completing segment iteration
emits exactly one system reset. -/
theorem segmentStep_count_sysReset (cfg : Config) (read : Nat → Nat → List Nat)
    (seg : Segment) (hok : (segmentStep cfg read seg).2 = none)
    (hrs : cfg.systemreset = true) :
    (segmentStep cfg read seg).1.count Ev.sysReset = 1 := by
  have hbase := count_sysReset_base cfg seg
  simp only [segmentStep] at hok ⊢
  by_cases hv : cfg.verify = true
  · rw [if_pos hv] at hok ⊢
    rcases hbe : byteListsEqual seg.data (read seg.start_addr seg.data.length)
      with _ | b
    · rw [hbe] at hok
      exact absurd hok (by simp)
    · cases b
      · rw [hbe] at hok
        exact absurd hok (by simp)
      · simp only [hrs, if_true]
        rw [List.count_append, List.count_append]
        rw [List.count_append] at hbase
        simp [List.count_cons] at hbase ⊢
        omega
  · rw [if_neg hv] at hok ⊢
    simp only [hrs, if_true]
    rw [List.count_append]
    rw [List.count_append] at hbase
    simp [List.count_cons] at hbase ⊢
    omega

/-- With the reset flag clear, a segment iteration emits no system reset. -/
theorem segmentStep_count_sysReset_zero (cfg : Config)
    (read : Nat → Nat → List Nat) (seg : Segment) (hrs : cfg.systemreset = false) :
    (segmentStep cfg read seg).1.count Ev.sysReset = 0 := by
  have hbase := count_sysReset_base cfg seg
  rw [List.count_append] at hbase
  simp only [segmentStep]
  by_cases hv : cfg.verify = true
  · rw [if_pos hv]
    rcases hbe : byteListsEqual seg.data (read seg.start_addr seg.data.length)
      with _ | b
    · rw [List.count_append, List.count_append]
      simp [List.count_cons] at hbase ⊢
      omega
    · cases b
      · rw [List.count_append, List.count_append]
        simp [List.count_cons] at hbase ⊢
        omega
      · simp only [hrs, Bool.false_eq_true, if_false]
        rw [List.count_append, List.count_append]
        simp [List.count_cons] at hbase ⊢
        omega
  · rw [if_neg hv]
    simp only [hrs, Bool.false_eq_true, if_false]
    rw [List.count_append]
    simp [List.count_cons] at hbase ⊢
    omega

/-- Reset count over the whole segment loop of a successful run. -/
theorem runSegments_count_sysReset (cfg : Config) (read : Nat → Nat → List Nat)
    (hrs : cfg.systemreset = true) :
    ∀ segs : List Segment, (runSegments cfg read segs).2 = none →
      (runSegments cfg read segs).1.count Ev.sysReset = segs.length := by
  intro segs
  induction segs with
  | nil =>
      intro _
      simp [runSegments]
  | cons seg rest ih =>
      intro hok
      unfold runSegments at hok ⊢
      rcases hst : segmentStep cfg read seg with ⟨evs, err⟩
      rw [hst] at hok
      cases err with
      | some e => exact absurd hok (by simp)
      | none =>
          simp only at hok
          have h1 : evs.count Ev.sysReset = 1 := by
            have h2 := segmentStep_count_sysReset cfg read seg (by rw [hst]) hrs
            rw [hst] at h2
            simpa using h2
          simp only [List.count_append, h1, ih hok, List.length_cons]
          omega

/-- The segment loop never emits a cleanup event. -/
theorem runSegments_no_cleanup (cfg : Config) (read : Nat → Nat → List Nat) :
    ∀ segs : List Segment, Ev.disconnectE ∉ (runSegments cfg read segs).1
      ∧ Ev.closeE ∉ (runSegments cfg read segs).1 := by
  intro segs
  induction segs with
  | nil => simp [runSegments]
  | cons seg rest ih =>
      unfold runSegments
      rcases hst : segmentStep cfg read seg with ⟨evs, err⟩
      have hevs : Ev.disconnectE ∉ evs ∧ Ev.closeE ∉ evs := by
        constructor <;> intro hmem <;>
          rcases segmentStep_mem cfg read seg _ (by rw [hst]; exact hmem) with
            ⟨a, ha⟩ | h | h | h <;> simp_all
      cases err with
      | some e => exact hevs
      | none =>
          simp only [List.mem_append, not_or]
          exact ⟨⟨hevs.1, ih.1⟩, ⟨hevs.2, ih.2⟩⟩

/-- Reset count over `_program_device` on a successful run. -/
theorem programDevice_count_sysReset (cfg : Config) (read : Nat → Nat → List Nat)
    (segs : List Segment) (hrs : cfg.systemreset = true)
    (hok : (programDevice cfg read segs).2 = none) :
    (programDevice cfg read segs).1.count Ev.sysReset = segs.length := by
  simp only [programDevice] at hok ⊢
  have h1 : (if cfg.erase_all then [Ev.recover] else ([] : List Ev)).count
      Ev.sysReset = 0 := by
    split <;> decide
  have h2 : (if cfg.sectors_and_uicr_erase then [Ev.eraseUicr] else ([] : List Ev)).count
      Ev.sysReset = 0 := by
    split <;> decide
  rw [List.count_append, List.count_append, h1, h2,
    runSegments_count_sysReset cfg read hrs segs hok]
  omega

/-- `_program_device` never emits a cleanup event. -/
theorem programDevice_no_cleanup (cfg : Config) (read : Nat → Nat → List Nat)
    (segs : List Segment) :
    Ev.disconnectE ∉ (programDevice cfg read segs).1
    ∧ Ev.closeE ∉ (programDevice cfg read segs).1 := by
  have hseg := runSegments_no_cleanup cfg read segs
  simp only [programDevice]
  constructor
  · simp only [List.mem_append, not_or]
    refine ⟨⟨?_, ?_⟩, hseg.1⟩ <;> split <;> decide
  · simp only [List.mem_append, not_or]
    refine ⟨⟨?_, ?_⟩, hseg.2⟩ <;> split <;> decide

/-- The worker's error is exactly the programming phase's error. -/
theorem performCommand_error_eq (cfg : Config) (read : Nat → Nat → List Nat)
    (segs : List Segment) (device : Nat) :
    (performCommand cfg read segs device).error = (programDevice cfg read segs).2 := by
  simp only [performCommand]
  rcases h : (programDevice cfg read segs).2 with _ | e <;> simp

/-- Successful worker trace: connect events, programming events, cleanup. -/
theorem performCommand_events_ok (cfg : Config) (read : Nat → Nat → List Nat)
    (segs : List Segment) (device : Nat)
    (hok : (programDevice cfg read segs).2 = none) :
    (performCommand cfg read segs device).events
      = [Ev.openE, Ev.connectEmu device] ++ (programDevice cfg read segs).1
        ++ [Ev.disconnectE, Ev.closeE] := by
  simp [performCommand, hok]

/-- Failing worker trace: connect events and programming events only. -/
theorem performCommand_events_err (cfg : Config) (read : Nat → Nat → List Nat)
    (segs : List Segment) (device : Nat) (e : PyErr)
    (herr : (programDevice cfg read segs).2 = some e) :
    (performCommand cfg read segs device).events
      = [Ev.openE, Ev.connectEmu device] ++ (programDevice cfg read segs).1 := by
  simp [performCommand, herr]

/-- Claim C2 counterexample: reset flag set, two-segment image, every
transport call succeeding — the completed worker issues two system resets,
one after each segment, with the first reset before the second segment's
write; not exactly one reset after all segments. -/
theorem c2_counterexample :
    (performCommand ⟨false, false, false, true, false, 1024⟩ zeroRead
        [⟨0, 2, [1, 2]⟩, ⟨4096, 4098, [3, 4]⟩] 42).error = none
    ∧ (performCommand ⟨false, false, false, true, false, 1024⟩ zeroRead
        [⟨0, 2, [1, 2]⟩, ⟨4096, 4098, [3, 4]⟩] 42).events
      = [Ev.openE, Ev.connectEmu 42, Ev.write 0 [1, 2], Ev.sysReset,
          Ev.write 4096 [3, 4], Ev.sysReset, Ev.disconnectE, Ev.closeE]
    ∧ (performCommand ⟨false, false, false, true, false, 1024⟩ zeroRead
        [⟨0, 2, [1, 2]⟩, ⟨4096, 4098, [3, 4]⟩] 42).events.count Ev.sysReset = 2 := by
  decide

/-- Claim C2 (amended): lines 130-131 sit inside the segment loop, so with
the system-reset flag set a worker that completes without an exception
issues exactly one system reset per segment — `segs.length` resets in
total, one after each segment's write/verify — rather than a single reset
after all segments. -/
theorem c2_reset_once_per_segment (cfg : Config) (read : Nat → Nat → List Nat)
    (segs : List Segment) (device : Nat) (hrs : cfg.systemreset = true)
    (hok : (performCommand cfg read segs device).error = none) :
    (performCommand cfg read segs device).events.count Ev.sysReset = segs.length := by
  have herr := performCommand_error_eq cfg read segs device
  rw [hok] at herr
  have hok2 : (programDevice cfg read segs).2 = none := herr.symm
  rw [performCommand_events_ok cfg read segs device hok2]
  rw [List.count_append, List.count_append]
  rw [programDevice_count_sysReset cfg read segs hrs hok2]
  have h1 : ([Ev.openE, Ev.connectEmu device] : List Ev).count Ev.sysReset = 0 := by
    simp [List.count_cons]
  have h2 : ([Ev.disconnectE, Ev.closeE] : List Ev).count Ev.sysReset = 0 := by
    decide
  rw [h1, h2]
  omega

theorem c2_reset_once_per_segment_witness :
    ((⟨false, false, false, true, false, 1024⟩ : Config).systemreset = true
      ∧ (performCommand ⟨false, false, false, true, false, 1024⟩ zeroRead
          [⟨8, 10, [5, 6]⟩] 11).error = none)
    ∧ (performCommand ⟨false, false, false, true, false, 1024⟩ zeroRead
        [⟨8, 10, [5, 6]⟩] 11).events.count Ev.sysReset
      = ([⟨8, 10, [5, 6]⟩] : List Segment).length :=
  ⟨⟨rfl, by decide⟩,
    c2_reset_once_per_segment _ zeroRead [⟨8, 10, [5, 6]⟩] 11 rfl (by decide)⟩

/-- Claim C3 counterexample: verify on, corrupted read-back — the `assert`
on line 128 raises, `perform_command` has no handler, and the worker ends
without `disconnect_from_emu`/`close`: the probe handle leaks. -/
theorem c3_counterexample :
    (performCommand ⟨false, false, false, false, true, 1024⟩ zeroRead
        [⟨0, 1, [1]⟩] 7).error = some PyErr.assertionError
    ∧ Ev.disconnectE ∉ (performCommand ⟨false, false, false, false, true, 1024⟩
        zeroRead [⟨0, 1, [1]⟩] 7).events
    ∧ Ev.closeE ∉ (performCommand ⟨false, false, false, false, true, 1024⟩
        zeroRead [⟨0, 1, [1]⟩] 7).events := by
  have hbe : byteListsEqual [1] (zeroRead 0 1) = some false := by
    rw [byteListsEqual,
      byteListsEqualGo_full [1] (zeroRead 0 1) (by decide) 1 0 (by decide)]
    decide
  have hres : performCommand ⟨false, false, false, false, true, 1024⟩ zeroRead
      [⟨0, 1, [1]⟩] 7
      = ⟨[Ev.openE, Ev.connectEmu 7, Ev.write 0 [1], Ev.readCall 0 1],
          some PyErr.assertionError⟩ := by
    simp [performCommand, programDevice, runSegments, segmentStep, hbe]
  rw [hres]
  decide

/-- Claim C3 (amended): no handler protects cleanup, so it runs exactly on
the success path: a worker finishing without an exception ends its trace
with disconnect-then-close, while a worker whose connect/erase/write/verify
phase raised ends without either cleanup event, leaking the probe handle. -/
theorem c3_cleanup_success_only (cfg : Config) (read : Nat → Nat → List Nat)
    (segs : List Segment) (device : Nat) :
    ((performCommand cfg read segs device).error = none →
      ∃ l, (performCommand cfg read segs device).events
        = l ++ [Ev.disconnectE, Ev.closeE])
    ∧ ((performCommand cfg read segs device).error ≠ none →
      Ev.disconnectE ∉ (performCommand cfg read segs device).events
      ∧ Ev.closeE ∉ (performCommand cfg read segs device).events) := by
  have herr := performCommand_error_eq cfg read segs device
  constructor
  · intro hok
    rw [hok] at herr
    rw [performCommand_events_ok cfg read segs device herr.symm]
    exact ⟨[Ev.openE, Ev.connectEmu device] ++ (programDevice cfg read segs).1, rfl⟩
  · intro hne
    rcases h : (programDevice cfg read segs).2 with _ | e
    · rw [herr, h] at hne
      exact absurd rfl hne
    · rw [performCommand_events_err cfg read segs device e h]
      have hnc := programDevice_no_cleanup cfg read segs
      constructor <;> simp only [List.mem_append, not_or] <;>
        refine ⟨by simp, ?_⟩
      · exact hnc.1
      · exact hnc.2

theorem c3_cleanup_success_only_witness :
    (∃ l, (performCommand ⟨false, false, false, false, false, 1024⟩ zeroRead
        [⟨0, 1, [1]⟩] 3).events = l ++ [Ev.disconnectE, Ev.closeE])
    ∧ (Ev.disconnectE ∉ (performCommand ⟨false, false, false, false, true, 1024⟩
          zeroRead [⟨0, 2, [1, 1]⟩] 3).events
      ∧ Ev.closeE ∉ (performCommand ⟨false, false, false, false, true, 1024⟩
          zeroRead [⟨0, 2, [1, 1]⟩] 3).events) :=
  ⟨(c3_cleanup_success_only ⟨false, false, false, false, false, 1024⟩ zeroRead
      [⟨0, 1, [1]⟩] 3).1 (by decide),
   (c3_cleanup_success_only ⟨false, false, false, false, true, 1024⟩ zeroRead
      [⟨0, 2, [1, 1]⟩] 3).2 (by
        have hbe : byteListsEqual [1, 1] (zeroRead 0 2) = some false := by
          rw [byteListsEqual,
            byteListsEqualGo_full [1, 1] (zeroRead 0 2) (by decide) 2 0 (by decide)]
          decide
        simp [performCommand, programDevice, runSegments, segmentStep, hbe])⟩

/-- Claim C4 counterexample: three targets, target 2's read-back corrupted.
Workers 1 and 3 succeed, worker 2 raises — but `pool.map` surfaces the
exception to `main` instead of producing three tagged per-target outcomes;
and at N = 0 the run raises `ValueError` at `ThreadPool(0)` instead of
returning an empty outcome list. -/
theorem c4_counterexample :
    workerOutcome ⟨false, false, false, false, true, 1024⟩ readOfFaulty2
        [⟨0, 1, [1]⟩] 1 = Except.ok ()
    ∧ workerOutcome ⟨false, false, false, false, true, 1024⟩ readOfFaulty2
        [⟨0, 1, [1]⟩] 2 = Except.error PyErr.assertionError
    ∧ workerOutcome ⟨false, false, false, false, true, 1024⟩ readOfFaulty2
        [⟨0, 1, [1]⟩] 3 = Except.ok ()
    ∧ mainRun ⟨false, false, false, false, true, 1024⟩ readOfFaulty2
        [⟨0, 1, [1]⟩] [1, 2, 3]
      = Except.error (MainErr.worker PyErr.assertionError)
    ∧ mainRun ⟨false, false, false, false, true, 1024⟩ readOfFaulty2
        [⟨0, 1, [1]⟩] [] = Except.error MainErr.valueError := by
  have h1 : byteListsEqual [1] (readOfFaulty2 1 0 1) = some true := by
    rw [byteListsEqual,
      byteListsEqualGo_full [1] (readOfFaulty2 1 0 1) (by decide) 1 0 (by decide)]
    decide
  have h2 : byteListsEqual [1] (readOfFaulty2 2 0 1) = some false := by
    rw [byteListsEqual,
      byteListsEqualGo_full [1] (readOfFaulty2 2 0 1) (by decide) 1 0 (by decide)]
    decide
  have h3 : byteListsEqual [1] (readOfFaulty2 3 0 1) = some true := by
    rw [byteListsEqual,
      byteListsEqualGo_full [1] (readOfFaulty2 3 0 1) (by decide) 1 0 (by decide)]
    decide
  have w1 : workerOutcome ⟨false, false, false, false, true, 1024⟩ readOfFaulty2
      [⟨0, 1, [1]⟩] 1 = Except.ok () := by
    simp [workerOutcome, performCommand, programDevice, runSegments, segmentStep, h1]
  have w2 : workerOutcome ⟨false, false, false, false, true, 1024⟩ readOfFaulty2
      [⟨0, 1, [1]⟩] 2 = Except.error PyErr.assertionError := by
    simp [workerOutcome, performCommand, programDevice, runSegments, segmentStep, h2]
  have w3 : workerOutcome ⟨false, false, false, false, true, 1024⟩ readOfFaulty2
      [⟨0, 1, [1]⟩] 3 = Except.ok () := by
    simp [workerOutcome, performCommand, programDevice, runSegments, segmentStep, h3]
  refine ⟨w1, w2, w3, ?_, rfl⟩
  simp [mainRun, poolMapResults, w1, w2]

/-- All workers succeeding: `pool.map` returns one untagged `None` per
serial number. -/
theorem poolMapResults_all_ok (cfg : Config) (readOf : Nat → Nat → Nat → List Nat)
    (segs : List Segment) :
    ∀ snrs : List Nat,
      (∀ d ∈ snrs, workerOutcome cfg readOf segs d = Except.ok ()) →
      poolMapResults cfg readOf segs snrs
        = Except.ok (List.replicate snrs.length ()) := by
  intro snrs
  induction snrs with
  | nil => intro _; rfl
  | cons a rest ih =>
      intro hall
      have ha := hall a (List.mem_cons_self a rest)
      have hr := ih (fun d hd => hall d (List.mem_cons_of_mem a hd))
      simp [poolMapResults, ha, hr, List.replicate_succ]

/-- Any failing worker makes the collected `pool.map` result an exception. -/
theorem poolMapResults_err (cfg : Config) (readOf : Nat → Nat → Nat → List Nat)
    (segs : List Segment) :
    ∀ snrs : List Nat, ∀ d ∈ snrs, ∀ e,
      workerOutcome cfg readOf segs d = Except.error e →
      ∃ e2, poolMapResults cfg readOf segs snrs = Except.error e2 := by
  intro snrs
  induction snrs with
  | nil =>
      intro d hd
      cases hd
  | cons a rest ih =>
      intro d hd e he
      rcases ha : workerOutcome cfg readOf segs a with e0 | u
      · exact ⟨e0, by simp [poolMapResults, ha]⟩
      · rcases List.mem_cons.mp hd with rfl | hd2
        · rw [ha] at he
          exact absurd he (by simp)
        · obtain ⟨e2, h2⟩ := ih d hd2 e he
          exact ⟨e2, by simp [poolMapResults, ha, h2]⟩

/-- Claim C4 (amended): for an empty resolved list the run raises
`ValueError` at `ThreadPool(0)` before any worker starts, producing no
outcome list at all; for a non-empty list the fan-out applies the worker to
each of the N serial numbers, the collected outcomes are untagged `None`s —
N of them when every worker succeeds — and a worker's exception propagates
out of the collection as the run's exception instead of being converted
into that target's outcome. -/
theorem c4_fanout_amended (cfg : Config) (readOf : Nat → Nat → Nat → List Nat)
    (segs : List Segment) (snrs : List Nat) :
    (snrs = [] → mainRun cfg readOf segs snrs = Except.error MainErr.valueError)
    ∧ (snrs ≠ [] → (∀ d ∈ snrs, workerOutcome cfg readOf segs d = Except.ok ()) →
      mainRun cfg readOf segs snrs = Except.ok (List.replicate snrs.length ()))
    ∧ (∀ d ∈ snrs, ∀ e, workerOutcome cfg readOf segs d = Except.error e →
      ∃ e2, mainRun cfg readOf segs snrs = Except.error (MainErr.worker e2)) := by
  refine ⟨?_, ?_, ?_⟩
  · intro h
    subst h
    rfl
  · intro hne hall
    have hlen : ¬ snrs.length = 0 := by
      simpa [List.length_eq_zero] using hne
    rw [mainRun, if_neg hlen, poolMapResults_all_ok cfg readOf segs snrs hall]
  · intro d hd e he
    have hne : ¬ snrs.length = 0 := by
      have : snrs ≠ [] := by
        intro h
        subst h
        cases hd
      simpa [List.length_eq_zero] using this
    obtain ⟨e2, h2⟩ := poolMapResults_err cfg readOf segs snrs d hd e he
    exact ⟨e2, by rw [mainRun, if_neg hne, h2]⟩

theorem c4_fanout_amended_witness :
    mainRun ⟨false, false, false, false, false, 1024⟩ readOfFaulty2
        [⟨0, 1, [1]⟩] []
      = Except.error MainErr.valueError
    ∧ mainRun ⟨false, false, false, false, false, 1024⟩ readOfFaulty2
        [⟨0, 1, [1]⟩] [5, 6]
      = Except.ok (List.replicate ([5, 6] : List Nat).length ())
    ∧ ∃ e2, mainRun ⟨false, false, false, false, true, 1024⟩ readOfFaulty2
        [⟨4, 5, [3]⟩] [2] = Except.error (MainErr.worker e2) :=
  ⟨(c4_fanout_amended ⟨false, false, false, false, false, 1024⟩ readOfFaulty2
      [⟨0, 1, [1]⟩] []).1 rfl,
   (c4_fanout_amended ⟨false, false, false, false, false, 1024⟩ readOfFaulty2
      [⟨0, 1, [1]⟩] [5, 6]).2.1 (by decide) (by intro d hd; fin_cases hd <;> rfl),
   (c4_fanout_amended ⟨false, false, false, false, true, 1024⟩ readOfFaulty2
      [⟨4, 5, [3]⟩] [2]).2.2 2 (by decide) PyErr.assertionError (by
        have hbe : byteListsEqual [3] (readOfFaulty2 2 4 1) = some false := by
          rw [byteListsEqual,
            byteListsEqualGo_full [3] (readOfFaulty2 2 4 1) (by decide) 1 0 (by decide)]
          decide
        simp [workerOutcome, performCommand, programDevice, runSegments,
          segmentStep, hbe])⟩

theorem connectAll_nextHandle (snrs : List Nat) :
    ∀ st : ProgState, (connectAll snrs st).nextHandle = st.nextHandle + snrs.length := by
  induction snrs with
  | nil =>
      intro st
      simp [connectAll]
  | cons a rest ih =>
      intro st
      have h := ih (connectDevice st a)
      simp only [connectAll, List.foldl_cons] at h ⊢
      rw [h]
      simp [connectDevice]
      omega

theorem connectAll_append (snrs : List Nat) (d : Nat) (st : ProgState) :
    connectAll (snrs ++ [d]) st = connectDevice (connectAll snrs st) d := by
  simp [connectAll, List.foldl_append]

theorem handleOf_connectDevice (st : ProgState) (d x : Nat) :
    handleOf (connectDevice st d) x
      = if x = d then some st.nextHandle else handleOf st x := by
  by_cases h : x = d
  · subst h
    rw [if_pos rfl]
    simp only [handleOf, connectDevice]
    rw [List.find?_cons_of_pos _ (by simp)]
    rfl
  · rw [if_neg h]
    simp only [handleOf, connectDevice]
    rw [List.find?_cons_of_neg _ (by simp; omega)]

/-- After all connects, a serial number present in the list resolves to one
of the handles allocated during those connects. -/
theorem handleOf_connectAll_mem (st : ProgState) (d : Nat) :
    ∀ snrs : List Nat, d ∈ snrs →
      ∃ i, i < snrs.length
        ∧ handleOf (connectAll snrs st) d = some (st.nextHandle + i) := by
  intro snrs
  induction snrs using List.reverseRecOn with
  | nil =>
      intro hd
      cases hd
  | append_singleton rest a ih =>
      intro hd
      rw [connectAll_append, handleOf_connectDevice]
      by_cases h : d = a
      · rw [if_pos h, connectAll_nextHandle]
        exact ⟨rest.length, by simp, rfl⟩
      · rw [if_neg h]
        have hd2 : d ∈ rest := by
          rcases List.mem_append.mp hd with h1 | h1
          · exact h1
          · rw [List.mem_singleton] at h1
            exact absurd h1 h
        obtain ⟨i, hi, hh⟩ := ih hd2
        refine ⟨i, ?_, hh⟩
        rw [List.length_append]
        omega

/-- Distinct serial numbers in the target list resolve to distinct handles. -/
theorem handleOf_connectAll_distinct (st : ProgState) (d1 d2 : Nat)
    (hne : d1 ≠ d2) :
    ∀ snrs : List Nat, d1 ∈ snrs → d2 ∈ snrs →
      handleOf (connectAll snrs st) d1 ≠ handleOf (connectAll snrs st) d2 := by
  intro snrs
  induction snrs using List.reverseRecOn with
  | nil =>
      intro h1
      cases h1
  | append_singleton rest a ih =>
      intro h1 h2
      rw [connectAll_append, handleOf_connectDevice, handleOf_connectDevice]
      by_cases e1 : d1 = a <;> by_cases e2 : d2 = a
      · exact absurd (e1.trans e2.symm) hne
      · rw [if_pos e1, if_neg e2]
        have hd2 : d2 ∈ rest := by
          rcases List.mem_append.mp h2 with h | h
          · exact h
          · rw [List.mem_singleton] at h
            exact absurd h e2
        obtain ⟨i, hi, hh⟩ := handleOf_connectAll_mem st d2 rest hd2
        rw [hh, connectAll_nextHandle]
        intro hc
        rw [Option.some.injEq] at hc
        omega
      · rw [if_neg e1, if_pos e2]
        have hd1 : d1 ∈ rest := by
          rcases List.mem_append.mp h1 with h | h
          · exact h
          · rw [List.mem_singleton] at h
            exact absurd h e1
        obtain ⟨i, hi, hh⟩ := handleOf_connectAll_mem st d1 rest hd1
        rw [hh, connectAll_nextHandle]
        intro hc
        rw [Option.some.injEq] at hc
        omega
      · rw [if_neg e1, if_neg e2]
        have hd1 : d1 ∈ rest := by
          rcases List.mem_append.mp h1 with h | h
          · exact h
          · rw [List.mem_singleton] at h
            exact absurd h e1
        have hd2 : d2 ∈ rest := by
          rcases List.mem_append.mp h2 with h | h
          · exact h
          · rw [List.mem_singleton] at h
            exact absurd h e2
        exact ih hd1 hd2

/-- Claim C9 counterexample: target list `[111, 111]`. Two handles are
created (`nextHandle = 2`), but both occurrences' workers resolve
`nRF5_instances[111]` to the handle stored by the later connect — the two
sessions share one probe handle and the first handle is orphaned. -/
theorem c9_counterexample :
    handleUsedByOccurrence [111, 111] 0 = some 1
    ∧ handleUsedByOccurrence [111, 111] 1 = some 1
    ∧ (connectAll [111, 111] initState).nextHandle = 2 := by
  decide

/-- Claim C9 (amended): all sessions share the one `nRF5_instances`
dictionary keyed by serial number, so occurrences of pairwise distinct
identifiers use pairwise distinct handles, but duplicate occurrences of the
same identifier collapse onto a single dictionary slot and share the
most-recently stored handle. -/
theorem c9_distinct_serials_distinct_handles (snrs : List Nat) (d1 d2 : Nat)
    (h1 : d1 ∈ snrs) (h2 : d2 ∈ snrs) (hne : d1 ≠ d2) :
    handleOf (connectAll snrs initState) d1
      ≠ handleOf (connectAll snrs initState) d2 :=
  handleOf_connectAll_distinct initState d1 d2 hne snrs h1 h2

theorem c9_distinct_serials_distinct_handles_witness :
    handleOf (connectAll [111, 222] initState) 111
      ≠ handleOf (connectAll [111, 222] initState) 222 :=
  c9_distinct_serials_distinct_handles [111, 222] 111 222 (by decide) (by decide)
    (by decide)

end NRF5MultiProg

